import Mathlib

/-!
Verification development for the scrapeyourcity repository (src/main.go).

The program scrapes civic-engagement project pages, stores canonicalized
content in a SQLite database with three tables (contents, projects,
project_observations), and records one observation row per crawl of a
project.  The definitions below are a shallow embedding of the SQL
statements issued by the run function, the fingerprint computation
(SHA-224 base62-encoded), the discovery filter, the link absolutization
helper, and the get helper.
-/

namespace ScrapeYourCity

/-- A row of the contents table:
CREATE TABLE contents (id INTEGER PRIMARY KEY, hash TEXT UNIQUE, html TEXT, markdown TEXT). -/
structure ContentRow where
  id : Nat
  hash : String
  html : String
  markdown : String
deriving DecidableEq, Repr

/-- A row of the projects table:
CREATE TABLE projects (id INTEGER PRIMARY KEY, url TEXT UNIQUE, title TEXT, state TEXT). -/
structure ProjectRow where
  id : Nat
  url : String
  title : String
  state : String
deriving DecidableEq, Repr

/-- A row of the project_observations table:
CREATE TABLE project_observations (id INTEGER PRIMARY KEY,
  project_id INTEGER REFERENCES projects (id), t DATETIME,
  content_id INTEGER REFERENCES contents (id)).
The two foreign-key columns are nullable: the inserting statement fills them
from subqueries that may return NULL. -/
structure ObservationRow where
  id : Nat
  projectId : Option Nat
  t : Nat
  contentId : Option Nat
deriving DecidableEq, Repr

/-- The visible database state: the three tables. -/
structure DB where
  contents : List ContentRow
  projects : List ProjectRow
  observations : List ObservationRow
deriving DecidableEq, Repr

/-- A freshly created database (after the three CREATE TABLE statements). -/
def dbEmpty : DB := ⟨[], [], []⟩

/-- SQLite rowid assignment for an INTEGER PRIMARY KEY column when the
inserted id is NULL: one more than the largest rowid in use. -/
def freshId (ids : List Nat) : Nat := ids.foldr max 0 + 1

/-- SELECT id FROM contents WHERE hash = ? -/
def contentsSelectId (db : DB) (hash : String) : Option Nat :=
  (db.contents.find? (fun r => r.hash == hash)).map (fun r => r.id)

/-- SELECT id FROM projects WHERE url = ? -/
def projectsSelectId (db : DB) (url : String) : Option Nat :=
  (db.projects.find? (fun r => r.url == url)).map (fun r => r.id)

/-- INSERT OR REPLACE INTO contents (id, hash, html, markdown)
VALUES ((SELECT id FROM contents WHERE hash = ?), ?, ?, ?).
When a row with this hash exists its id is reused and the row is replaced
(REPLACE deletes rows conflicting on the primary key or the unique hash,
then inserts); when none exists the id subquery yields NULL and SQLite
assigns a fresh rowid.  contentsUpsertId is the rowid the statement ends
up writing under: the id subquery result, or a fresh rowid when the
subquery yields NULL. -/
def contentsUpsertId (db : DB) (hash : String) : Nat :=
  match contentsSelectId db hash with
  | some i => i
  | none => freshId (db.contents.map (fun r => r.id))

/-- The replacement effect of the contents INSERT OR REPLACE statement. -/
def contentsUpsert (db : DB) (hash html markdown : String) : DB :=
  let i := contentsUpsertId db hash
  { db with contents :=
      db.contents.filter (fun r => !(r.id == i) && !(r.hash == hash)) ++
        [⟨i, hash, html, markdown⟩] }

/-- The rowid the projects INSERT OR REPLACE statement writes under. -/
def projectsUpsertId (db : DB) (url : String) : Nat :=
  match projectsSelectId db url with
  | some i => i
  | none => freshId (db.projects.map (fun r => r.id))

/-- INSERT OR REPLACE INTO projects (id, url, title, state)
VALUES ((SELECT id FROM projects WHERE url = ?), ?, ?, ?). -/
def projectsUpsert (db : DB) (url title state : String) : DB :=
  let i := projectsUpsertId db url
  { db with projects :=
      db.projects.filter (fun r => !(r.id == i) && !(r.url == url)) ++
        [⟨i, url, title, state⟩] }

/-- INSERT INTO project_observations (project_id, t, content_id)
VALUES ((SELECT id FROM projects WHERE url = ?), ?,
        (SELECT id FROM contents WHERE hash = ?)). -/
def observationInsert (db : DB) (url : String) (t : Nat) (hash : String) : DB :=
  { db with observations := db.observations ++
      [⟨freshId (db.observations.map (fun r => r.id)),
        projectsSelectId db url, t, contentsSelectId db hash⟩] }

/-- A point inside the atomic-upsert transaction at which a failure can be
injected: one of the three statements or the final commit. -/
inductive FailPoint where
  | atContents
  | atProjects
  | atObservation
  | atCommit
deriving DecidableEq, Repr

/-- The extracted tuple one atomic-upsert unit writes, together with the
crawl timestamp. -/
structure UnitInput where
  hash : String
  html : String
  markdown : String
  url : String
  title : String
  state : String
  t : Nat
deriving DecidableEq, Repr

/-- One atomic-upsert unit (the transaction in run): the three statements
executed in order inside one transaction, with an optional injected
failure.  An error result means the transaction did not commit. -/
def runUnit (db : DB) (u : UnitInput) (fail : Option FailPoint) :
    Except FailPoint DB :=
  if fail == some .atContents then .error .atContents else
  let db1 := contentsUpsert db u.hash u.html u.markdown
  if fail == some .atProjects then .error .atProjects else
  let db2 := projectsUpsert db1 u.url u.title u.state
  if fail == some .atObservation then .error .atObservation else
  let db3 := observationInsert db2 u.url u.t u.hash
  if fail == some .atCommit then .error .atCommit else
  .ok db3

/-- The database state visible after the unit: the committed state on
success, the unchanged prior state when any statement or the commit failed
(the deferred Rollback discards all writes of the transaction). -/
def unitResult (db : DB) (u : UnitInput) (fail : Option FailPoint) : DB :=
  match runUnit db u fail with
  | .ok db2 => db2
  | .error _ => db

/-- The driver loop over the discovered projects: units run sequentially
and the run stops at the first failed unit (run returns the error). -/
def runAll (db : DB) (units : List (UnitInput × Option FailPoint)) : DB :=
  match units with
  | [] => db
  | (u, fail) :: rest =>
    match runUnit db u fail with
    | .ok db2 => runAll db2 rest
    | .error _ => db

/-- The units of a run that commit: the longest failure-free prefix. -/
def succUnits (units : List (UnitInput × Option FailPoint)) : List UnitInput :=
  match units with
  | [] => []
  | (u, fail) :: rest =>
    match fail with
    | none => u :: succUnits rest
    | some _ => []

/-! ## Fingerprint: sha256.Sum224 followed by base62.EncodeToString

The run function computes sum := sha256.Sum224([]byte(p.HTML)) and
p.HTMLSum := base62.EncodeToString(sum[:]).  Bytes are modelled as Nat
values below 256; words as Nat values below 2^32 maintained by explicit
reduction mod 2^32. -/

/-- Reduce to a 32-bit word. -/
def w32 (n : Nat) : Nat := n % 4294967296

/-- Right rotation of a 32-bit word. -/
def rotr (n x : Nat) : Nat := w32 ((x >>> n) ||| (x <<< (32 - n)))

/-- The Ch function of FIPS 180-4. -/
def ch (x y z : Nat) : Nat := (x &&& y) ^^^ ((x ^^^ 4294967295) &&& z)

/-- The Maj function of FIPS 180-4. -/
def maj (x y z : Nat) : Nat := (x &&& y) ^^^ (x &&& z) ^^^ (y &&& z)

/-- The big Sigma0 function of FIPS 180-4. -/
def bigSigma0 (x : Nat) : Nat := rotr 2 x ^^^ rotr 13 x ^^^ rotr 22 x

/-- The big Sigma1 function of FIPS 180-4. -/
def bigSigma1 (x : Nat) : Nat := rotr 6 x ^^^ rotr 11 x ^^^ rotr 25 x

/-- The small sigma0 function of FIPS 180-4. -/
def smallSigma0 (x : Nat) : Nat := rotr 7 x ^^^ rotr 18 x ^^^ (x >>> 3)

/-- The small sigma1 function of FIPS 180-4. -/
def smallSigma1 (x : Nat) : Nat := rotr 17 x ^^^ rotr 19 x ^^^ (x >>> 10)

/-- The 64 SHA-256 round constants (decimal). -/
def shaK : List Nat :=
  [1116352408, 1899447441, 3049323471, 3921009573, 961987163,
   1508970993, 2453635748, 2870763221, 3624381080, 310598401,
   607225278, 1426881987, 1925078388, 2162078206, 2614888103,
   3248222580, 3835390401, 4022224774, 264347078, 604807628,
   770255983, 1249150122, 1555081692, 1996064986, 2554220882,
   2821834349, 2952996808, 3210313671, 3336571891, 3584528711,
   113926993, 338241895, 666307205, 773529912, 1294757372,
   1396182291, 1695183700, 1986661051, 2177026350, 2456956037,
   2730485921, 2820302411, 3259730800, 3345764771, 3516065817,
   3600352804, 4094571909, 275423344, 430227734, 506948616,
   659060556, 883997877, 958139571, 1322822218, 1537002063,
   1747873779, 1955562222, 2024104815, 2227730452, 2361852424,
   2428436474, 2756734187, 3204031479, 3329325298]

/-- Big-endian byte decomposition of a number into k bytes. -/
def beBytes (k : Nat) (n : Nat) : List Nat :=
  match k with
  | 0 => []
  | k + 1 => beBytes k (n >>> 8) ++ [n % 256]

/-- SHA padding: append 0x80, zero bytes up to 56 mod 64, and the bit
length as 8 big-endian bytes. -/
def shaPad (msg : List Nat) : List Nat :=
  let z := (119 - msg.length % 64) % 64
  msg ++ [128] ++ List.replicate z 0 ++ beBytes 8 (8 * msg.length)

/-- Group bytes into big-endian 32-bit words. -/
def toWords : List Nat → List Nat
  | a :: b :: c :: d :: rest =>
      ((a <<< 24) ||| (b <<< 16) ||| (c <<< 8) ||| d) :: toWords rest
  | _ => []

/-- Split a byte list into 64-byte blocks (fuel-driven structural
recursion; call with fuel at least the list length). -/
def chunks64 : Nat → List Nat → List (List Nat)
  | 0, _ => []
  | _, [] => []
  | fuel + 1, bs => bs.take 64 :: chunks64 fuel (bs.drop 64)

/-- The eight 32-bit working variables of the compression function. -/
structure Hash8 where
  a : Nat
  b : Nat
  c : Nat
  d : Nat
  e : Nat
  f : Nat
  g : Nat
  h : Nat
deriving DecidableEq, Repr

/-- The SHA-224 initial hash value (decimal). -/
def initH224 : Hash8 :=
  ⟨3238371032, 914150663, 812702999, 4144912697,
   4290775857, 1750603025, 1694076839, 3204075428⟩

/-- Expand the 16 message words of one block to the 64-word schedule. -/
def msgSchedule (block : List Nat) : List Nat :=
  (List.range 64).foldl (fun ws i =>
    if i < 16 then ws ++ [block.getD i 0]
    else
      ws ++ [w32 (smallSigma1 (ws.getD (i - 2) 0) + ws.getD (i - 7) 0 +
                  smallSigma0 (ws.getD (i - 15) 0) + ws.getD (i - 16) 0)]) []

/-- One round of the SHA-256 compression function. -/
def compressRound (st : Hash8) (ki wi : Nat) : Hash8 :=
  let t1 := w32 (st.h + bigSigma1 st.e + ch st.e st.f st.g + ki + wi)
  let t2 := w32 (bigSigma0 st.a + maj st.a st.b st.c)
  ⟨w32 (t1 + t2), st.a, st.b, st.c, w32 (st.d + t1), st.e, st.f, st.g⟩

/-- Process one 64-byte block. -/
def compressBlock (st : Hash8) (block : List Nat) : Hash8 :=
  let ws := msgSchedule (toWords block)
  let fin := (shaK.zip ws).foldl (fun s p => compressRound s p.1 p.2) st
  ⟨w32 (st.a + fin.a), w32 (st.b + fin.b), w32 (st.c + fin.c),
   w32 (st.d + fin.d), w32 (st.e + fin.e), w32 (st.f + fin.f),
   w32 (st.g + fin.g), w32 (st.h + fin.h)⟩

/-- sha256.Sum224: digest of a byte sequence, truncated to the first seven
words (28 bytes). -/
def sha224 (msg : List Nat) : List Nat :=
  let padded := shaPad msg
  let fin := (chunks64 padded.length padded).foldl compressBlock initH224
  beBytes 4 fin.a ++ beBytes 4 fin.b ++ beBytes 4 fin.c ++ beBytes 4 fin.d ++
    beBytes 4 fin.e ++ beBytes 4 fin.f ++ beBytes 4 fin.g

/-- The base62 alphabet of the base62 package (digits, upper, lower). -/
def base62Alphabet : List Char :=
  "0123456789ABCDEFGHIJKLMNOPQRSTUVWXYZabcdefghijklmnopqrstuvwxyz".toList

/-- Bit i of a byte stream, least-significant bit of each byte first. -/
def streamBit (bs : List Nat) (i : Nat) : Nat :=
  ((bs.getD (i / 8) 0) >>> (i % 8)) % 2

/-- Read six stream bits at position pos (zero-padded past the end). -/
def readBits6 (bs : List Nat) (pos : Nat) : Nat :=
  streamBit bs pos + 2 * streamBit bs (pos + 1) + 4 * streamBit bs (pos + 2) +
    8 * streamBit bs (pos + 3) + 16 * streamBit bs (pos + 4) +
    32 * streamBit bs (pos + 5)

/-- The base62 encoding loop: consume six bits per character, or only five
when the five low bits form the compact pattern 1111x, producing character
indices below 62. -/
def base62Loop : Nat → List Nat → Nat → List Nat
  | 0, _, _ => []
  | fuel + 1, bs, pos =>
    if pos < 8 * bs.length then
      let i := readBits6 bs pos
      if i &&& 30 == 30 then (i &&& 31) :: base62Loop fuel bs (pos + 5)
      else i :: base62Loop fuel bs (pos + 6)
    else []

/-- base62.EncodeToString on a byte sequence. -/
def base62EncodeToString (bs : List Nat) : String :=
  String.mk ((base62Loop (8 * bs.length) bs 0).map
    (fun i => base62Alphabet.getD i '0'))

/-- The UTF-8 bytes of one character (the Go []byte(string) conversion is
UTF-8 encoding). -/
def charBytes (c : Char) : List Nat :=
  let n := c.toNat
  if n < 128 then [n]
  else if n < 2048 then [192 + n / 64, 128 + n % 64]
  else if n < 65536 then [224 + n / 4096, 128 + (n / 64) % 64, 128 + n % 64]
  else [240 + n / 262144, 128 + (n / 4096) % 64, 128 + (n / 64) % 64,
        128 + n % 64]

/-- []byte(s): the UTF-8 bytes of a string. -/
def strBytes (s : String) : List Nat :=
  s.data.foldr (fun c acc => charBytes c ++ acc) []

/-- The fingerprint of the canonical html: p.HTMLSum =
base62.EncodeToString(sha256.Sum224([]byte(p.HTML))[:]). -/
def fingerprint (html : String) : String :=
  base62EncodeToString (sha224 (strBytes html))

/-! ## Entity discovery filter

The loop over sels[0] of the projects listing page builds the list of
projects to process, skipping the fixed self-referential landing URL and,
when the -urls flag gave a nonempty list, any URL not contained in it. -/

/-- A discovered project tile: the data-state attribute and the
absolutized href of its a.project-tile__link anchor. -/
structure Discovered where
  state : String
  url : String
deriving DecidableEq, Repr

/-- The fixed skipped self-referential landing page URL. -/
def denyURL : String := "https://www.shapeyourcityhalifax.ca/shape-your-city-halifax"

/-- The discovery loop: if p.URL == denyURL continue; if len(onlyURLs) > 0
and onlyURLs does not contain p.URL continue; else append p. -/
def discoverFilter (onlyURLs : List String) : List Discovered → List Discovered
  | [] => []
  | p :: rest =>
    if p.url == denyURL then discoverFilter onlyURLs rest
    else if !onlyURLs.isEmpty && !onlyURLs.contains p.url then
      discoverFilter onlyURLs rest
    else p :: discoverFilter onlyURLs rest

/-! ## The abs helper and the net/url behaviour it relies on

abs parses its argument with url.Parse, returns "" on a parse error, and
otherwise resolves the parsed reference against the fixed base
https://www.shapeyourcityhalifax.ca/projects and renders the result.
The GoURL definitions model the net/url parsing, resolution and printing
the helper calls. -/

/-- The components of a parsed URL (net/url URL, with the raw query and
raw fragment kept escaped and the empty string standing for absence). -/
structure GoURL where
  scheme : String
  opq : String
  host : String
  path : String
  query : String
  fragment : String
deriving DecidableEq, Repr

/-- ASCII letter test. -/
def isAlpha (c : Char) : Bool :=
  (0x41 ≤ c.toNat && c.toNat ≤ 0x5a) || (0x61 ≤ c.toNat && c.toNat ≤ 0x7a)

/-- ASCII digit test. -/
def isDigit (c : Char) : Bool := 0x30 ≤ c.toNat && c.toNat ≤ 0x39

/-- ASCII hex digit test. -/
def isHex (c : Char) : Bool :=
  isDigit c || (0x41 ≤ c.toNat && c.toNat ≤ 0x46) ||
    (0x61 ≤ c.toNat && c.toNat ≤ 0x66)

/-- url.Parse rejects any ASCII control byte in the raw URL. -/
def hasCtl (s : String) : Bool :=
  s.data.any (fun c => c.toNat < 32 || c.toNat == 127)

/-- Split a character list at the first occurrence of c: the part before
and, when c occurs, the part after it. -/
def splitAtChar (c : Char) : List Char → List Char × Option (List Char)
  | [] => ([], none)
  | x :: xs =>
    if x == c then ([], some xs)
    else
      let p := splitAtChar c xs
      (x :: p.1, p.2)

/-- getScheme of net/url: scan for a scheme delimiter; a leading colon is
the missing-protocol-scheme error; a scheme must start with a letter and
continue with letters, digits, plus, minus or dot; any other character
means the whole input is scheme-free. -/
def getSchemeAux (acc : List Char) (orig : List Char) :
    List Char → Except Unit (List Char × List Char)
  | [] => .ok ([], orig)
  | c :: rest =>
    if isAlpha c then getSchemeAux (acc ++ [c]) orig rest
    else if isDigit c || c == '+' || c == '-' || c == '.' then
      if acc.isEmpty then .ok ([], orig)
      else getSchemeAux (acc ++ [c]) orig rest
    else if c == ':' then
      if acc.isEmpty then .error () else .ok (acc, rest)
    else .ok ([], orig)

/-- getScheme on a full input. -/
def getScheme (cs : List Char) : Except Unit (List Char × List Char) :=
  getSchemeAux [] cs cs

/-- Percent escapes must be a percent sign followed by two hex digits
(the unescape validation of net/url applied to paths, hosts and
fragments). -/
def validEscapes : List Char → Bool
  | [] => true
  | c :: rest =>
    if c == '%' then
      match rest with
      | a :: b :: rest2 => isHex a && isHex b && validEscapes rest2
      | _ => false
    else validEscapes rest

/-- An optional port after the last colon of the host must be all
digits. -/
def validHostPort (host : List Char) : Bool :=
  let p := splitAtChar ':' host.reverse
  match p.2 with
  | none => true
  | some _ => p.1.reverse.all isDigit

/-- The first path segment of a scheme-free, non-rooted rest must not
contain a colon (net/url first-path-segment error). -/
def firstSegmentHasColon (cs : List Char) : Bool :=
  ((splitAtChar '/' cs).1).contains ':'

/-- url.Parse: control-byte check, fragment split, scheme extraction,
query split, authority parsing for a rest starting with two slashes, and
escape validation of path, host and fragment.  none models a non-nil
error. -/
def urlParse (raw : String) : Option GoURL :=
  if hasCtl raw then none else
  let fsplit := splitAtChar '#' raw.data
  let frag := (fsplit.2).getD []
  if !validEscapes frag then none else
  match getScheme fsplit.1 with
  | .error _ => none
  | .ok (schemeCs, rest0) =>
    let scheme := String.mk (schemeCs.map Char.toLower)
    let qsplit := splitAtChar '?' rest0
    let rest1 := qsplit.1
    let query := (qsplit.2).getD []
    if !(rest1.take 1 == ['/']) && !schemeCs.isEmpty then
      -- rootless path with a scheme: the rest is opaque
      some ⟨scheme, String.mk rest1, "", "", String.mk query, String.mk frag⟩
    else
      if !(rest1.take 1 == ['/']) && firstSegmentHasColon rest1 then none
      else if rest1.take 2 == ['/', '/'] then
        let auth := (rest1.drop 2)
        let asplit := splitAtChar '/' auth
        let host := asplit.1
        let path := match asplit.2 with
          | none => []
          | some rest2 => '/' :: rest2
        if !validHostPort host || !validEscapes host || !validEscapes path then
          none
        else
          some ⟨scheme, "", String.mk host, String.mk path,
                String.mk query, String.mk frag⟩
      else
        if !validEscapes rest1 then none
        else some ⟨scheme, "", "", String.mk rest1,
                   String.mk query, String.mk frag⟩

/-- The prefix of a path up to and including its last slash (empty when
it has no slash). -/
def upToLastSlash (cs : List Char) : List Char :=
  (cs.reverse.dropWhile (fun c => !(c == '/'))).reverse

/-- Split a character list on a separator character, like splitting a
string on a one-character separator. -/
def splitOnCharAux (c : Char) (acc : List Char) :
    List Char → List (List Char)
  | [] => [acc.reverse]
  | x :: xs =>
    if x == c then acc.reverse :: splitOnCharAux c [] xs
    else splitOnCharAux c (x :: acc) xs

/-- All separator-delimited segments of a character list. -/
def splitOnChar (c : Char) (cs : List Char) : List (List Char) :=
  splitOnCharAux c [] cs

/-- Rejoin segments with a separator character. -/
def joinChar (c : Char) : List (List Char) → List Char
  | [] => []
  | [s] => s
  | s :: rest => s ++ c :: joinChar c rest

/-- Process the slash-separated segments of a merged path, dropping
single-dot segments and letting double-dot segments pop the previous
segment; a trailing dot segment leaves a trailing slash. -/
def dotSegments (acc : List (List Char)) :
    List (List Char) → List (List Char)
  | [] => acc
  | [last] =>
    if last == ['.'] then acc ++ [[]]
    else if last == ['.', '.'] then acc.dropLast ++ [[]]
    else acc ++ [last]
  | seg :: rest =>
    if seg == ['.'] then dotSegments acc rest
    else if seg == ['.', '.'] then dotSegments acc.dropLast rest
    else dotSegments (acc ++ [seg]) rest

/-- resolvePath of net/url: merge the reference path with the base path
and remove dot segments; the result is empty or starts with a slash. -/
def resolvePath (base ref : String) : String :=
  let full : List Char :=
    if ref.data == [] then base.data
    else if !(ref.data.take 1 == ['/']) then upToLastSlash base.data ++ ref.data
    else ref.data
  if full == [] then ""
  else
    let segs :=
      if full.take 1 == ['/'] then (splitOnChar '/' full).drop 1
      else splitOnChar '/' full
    String.mk ('/' :: joinChar '/' (dotSegments [] segs))

/-- ResolveReference of net/url: an absolute reference (or one with a
host) keeps its own components; an opaque reference keeps its opacity; an
empty path with no query inherits the base query (and fragment when the
reference has none); otherwise host comes from the base and the paths are
merged. -/
def resolveReference (u ref : GoURL) : GoURL :=
  let scheme := if ref.scheme == "" then u.scheme else ref.scheme
  if !(ref.scheme == "") || !(ref.host == "") then
    ⟨scheme, ref.opq, ref.host, resolvePath ref.path "",
     ref.query, ref.fragment⟩
  else if !(ref.opq == "") then
    ⟨scheme, ref.opq, "", "", ref.query, ref.fragment⟩
  else
    let query := if ref.path == "" && ref.query == "" then u.query
                 else ref.query
    let fragment := if ref.path == "" && ref.query == "" && ref.fragment == ""
                    then u.fragment else ref.fragment
    ⟨scheme, "", u.host, resolvePath u.path ref.path, query, fragment⟩

/-- The String method of net/url URL. -/
def GoURL.render (u : GoURL) : String :=
  String.mk (
    (if u.scheme.data == [] then [] else u.scheme.data ++ [':']) ++
    (if !(u.opq.data == []) then u.opq.data
     else
       (if !(u.scheme.data == []) || !(u.host.data == []) then
          (if !(u.host.data == []) || !(u.path.data == []) then ['/', '/']
           else [])
            ++ u.host.data
        else []) ++
       (if !(u.path.data == []) && !(u.path.data.take 1 == ['/']) &&
            !(u.host.data == [])
        then ['/'] else []) ++ u.path.data) ++
    (if u.query.data == [] then [] else '?' :: u.query.data) ++
    (if u.fragment.data == [] then [] else '#' :: u.fragment.data))

/-- The parsed fixed base URL of the run function. -/
def projectsURL : GoURL :=
  (urlParse "https://www.shapeyourcityhalifax.ca/projects").getD
    ⟨"", "", "", "", "", ""⟩

/-- The abs closure of run: parse the argument, return the empty string on
a parse error, and otherwise render the reference resolved against the
base. -/
def absHelper (s : String) : String :=
  match urlParse s with
  | none => ""
  | some rel => (resolveReference projectsURL rel).render

/-- An anchor or image element, carrying its href or src attribute when
present. -/
structure Elem where
  attr : Option String
deriving DecidableEq, Repr

/-- AttrOr: the attribute value, or the given default when absent. -/
def attrOr (e : Elem) (d : String) : String := e.attr.getD d

/-- The absolutization loops of run: every anchor gets
SetAttr("href", abs(AttrOr("href", ""))) and every image gets
SetAttr("src", abs(AttrOr("src", ""))). -/
def rewriteElems (es : List Elem) : List Elem :=
  es.map (fun e => ⟨some (absHelper (attrOr e ""))⟩)

/-! ## The get helper and per-entity control flow -/

/-- The portion of a matched selection that the rest of run consumes: the
first h1 text and the cleaned, formatted html. -/
structure Sel where
  title : String
  html : String
deriving DecidableEq, Repr

/-- A parsed document, modelled by the result of Find for each selector;
a none result models goquery returning a nil selection. -/
structure Doc where
  find : String → Option Sel

/-- The selector loop of get: Find each selector; when a result is nil,
get returns a nil selection list AND a nil error (the ok none case);
otherwise all selections with no error. -/
def selsLoop (doc : Doc) : List String → Option (List Sel)
  | [] => some []
  | s :: rest =>
    match doc.find s with
    | none => none
    | some sel => (selsLoop doc rest).map (fun l => sel :: l)

/-- get: a transport or parse failure returns a non-nil error; otherwise
the selector loop runs; ok none is the return nil, nil branch. -/
def get (fetched : Except Unit Doc) (selectors : List String) :
    Except Unit (Option (List Sel)) :=
  match fetched with
  | .error _ => .error ()
  | .ok doc =>
    match selsLoop doc selectors with
    | none => .ok none
    | some sels => .ok (some sels)

/-- What processing one entity in run leads to: the error return when get
failed, a runtime panic when sels is nil or empty and sels[0] is
evaluated, or the committed database after the atomic-upsert unit. -/
inductive EntityOutcome where
  | fetchErr
  | panicked
  | wrote (db : DB)

/-- The body of the per-project loop in run: call get with the #yield
selector; return the error if non-nil; otherwise index sels[0] (a panic if
the slice is nil), extract, fingerprint, and run the atomic-upsert
unit. -/
def processEntity (md : String → String) (db : DB) (url state : String)
    (fetched : Except Unit Doc) (t : Nat) : EntityOutcome :=
  match get fetched ["#yield"] with
  | .error _ => .fetchErr
  | .ok none => .panicked
  | .ok (some []) => .panicked
  | .ok (some (sel :: _)) =>
    .wrote (unitResult db
      ⟨fingerprint sel.html, sel.html, md sel.html, url, sel.title, state, t⟩
      none)

/-- Uniqueness invariants SQLite enforces on the three tables: rowids are
unique per table, and so are the declared UNIQUE columns contents.hash and
projects.url. -/
def DBWF (db : DB) : Prop :=
  (db.contents.map (fun r => r.id)).Nodup ∧
  (db.contents.map (fun r => r.hash)).Nodup ∧
  (db.projects.map (fun r => r.id)).Nodup ∧
  (db.projects.map (fun r => r.url)).Nodup

instance (db : DB) : Decidable (DBWF db) := by
  unfold DBWF; infer_instance

/-- Foreign-key integrity of the observation log towards projects, as
enforced by PRAGMA foreign_keys(1): every non-NULL project_id references
an existing projects rowid. -/
def ObsFK (db : DB) : Prop :=
  ∀ o ∈ db.observations,
    o.projectId = none ∨ ∃ r ∈ db.projects, o.projectId = some r.id

instance (db : DB) : Decidable (ObsFK db) := by
  unfold ObsFK; infer_instance

/-- The observation rows attributed to the entity with the given
identifier: zero when no projects row carries the identifier, else the
number of observation rows referencing that row. -/
def obsCountFor (db : DB) (url : String) : Nat :=
  match projectsSelectId db url with
  | none => 0
  | some pid => db.observations.countP (fun o => o.projectId == some pid)

/-! ## Table-shape lemmas -/

theorem contents_of_projectsUpsert (db : DB) (url title state : String) :
    (projectsUpsert db url title state).contents = db.contents := rfl

theorem observations_of_projectsUpsert (db : DB) (url title state : String) :
    (projectsUpsert db url title state).observations = db.observations := rfl

theorem projects_of_contentsUpsert (db : DB) (h x m : String) :
    (contentsUpsert db h x m).projects = db.projects := rfl

theorem observations_of_contentsUpsert (db : DB) (h x m : String) :
    (contentsUpsert db h x m).observations = db.observations := rfl

theorem contents_of_observationInsert (db : DB) (url : String) (t : Nat) (h : String) :
    (observationInsert db url t h).contents = db.contents := rfl

theorem projects_of_observationInsert (db : DB) (url : String) (t : Nat) (h : String) :
    (observationInsert db url t h).projects = db.projects := rfl

theorem contentsUpsert_contents (db : DB) (h x m : String) :
    (contentsUpsert db h x m).contents =
      db.contents.filter
        (fun r => !(r.id == contentsUpsertId db h) && !(r.hash == h)) ++
        [⟨contentsUpsertId db h, h, x, m⟩] := rfl

theorem projectsUpsert_projects (db : DB) (url title state : String) :
    (projectsUpsert db url title state).projects =
      db.projects.filter
        (fun r => !(r.id == projectsUpsertId db url) && !(r.url == url)) ++
        [⟨projectsUpsertId db url, url, title, state⟩] := rfl

/-- Rows surviving the replacement filter of the contents statement never
carry the upserted hash, so the hash lookup afterwards finds exactly the
new row. -/
theorem contentsSelectId_contentsUpsert (db : DB) (h x m : String) :
    contentsSelectId (contentsUpsert db h x m) h =
      some (contentsUpsertId db h) := by
  unfold contentsSelectId
  rw [contentsUpsert_contents, List.find?_append]
  have hnone : (db.contents.filter
      (fun r => !(r.id == contentsUpsertId db h) && !(r.hash == h))).find?
        (fun r => r.hash == h) = none := by
    rw [List.find?_eq_none]
    intro r hr
    rcases List.mem_filter.mp hr with ⟨-, hcond⟩
    simp only [Bool.and_eq_true, Bool.not_eq_true'] at hcond
    simp [hcond.2]
  simp [hnone]

theorem projectsSelectId_projectsUpsert (db : DB) (url title state : String) :
    projectsSelectId (projectsUpsert db url title state) url =
      some (projectsUpsertId db url) := by
  unfold projectsSelectId
  rw [projectsUpsert_projects, List.find?_append]
  have hnone : (db.projects.filter
      (fun r => !(r.id == projectsUpsertId db url) && !(r.url == url))).find?
        (fun r => r.url == url) = none := by
    rw [List.find?_eq_none]
    intro r hr
    rcases List.mem_filter.mp hr with ⟨-, hcond⟩
    simp only [Bool.and_eq_true, Bool.not_eq_true'] at hcond
    simp [hcond.2]
  simp [hnone]

/-- The id the projects statement writes under is stable across repeated
upserts for the same identifier. -/
theorem projectsUpsertId_projectsUpsert (db : DB) (url title state : String) :
    projectsUpsertId (projectsUpsert db url title state) url =
      projectsUpsertId db url := by
  unfold projectsUpsertId
  rw [projectsSelectId_projectsUpsert]
  rfl

/-! ## Atomic-upsert unit lemmas -/

theorem runUnit_none (db : DB) (u : UnitInput) :
    runUnit db u none =
      .ok (observationInsert
            (projectsUpsert (contentsUpsert db u.hash u.html u.markdown)
              u.url u.title u.state)
            u.url u.t u.hash) := rfl

theorem unitResult_none (db : DB) (u : UnitInput) :
    unitResult db u none =
      observationInsert
        (projectsUpsert (contentsUpsert db u.hash u.html u.markdown)
          u.url u.title u.state)
        u.url u.t u.hash := rfl

theorem unitResult_fail (db : DB) (u : UnitInput) (p : FailPoint) :
    unitResult db u (some p) = db := by
  cases p <;> rfl

theorem unit_contents (db : DB) (u : UnitInput) :
    (unitResult db u none).contents =
      (contentsUpsert db u.hash u.html u.markdown).contents := rfl

theorem unit_projects (db : DB) (u : UnitInput) :
    (unitResult db u none).projects =
      (projectsUpsert (contentsUpsert db u.hash u.html u.markdown)
        u.url u.title u.state).projects := rfl

/-- The committed unit appends exactly one observation row, referencing
the rowids the contents and projects statements of the same unit wrote
under. -/
theorem unit_observations (db : DB) (u : UnitInput) :
    (unitResult db u none).observations =
      db.observations ++
        [⟨freshId (db.observations.map (fun r => r.id)),
          some (projectsUpsertId db u.url), u.t,
          some (contentsUpsertId db u.hash)⟩] := by
  rw [unitResult_none]
  unfold observationInsert
  have hp : projectsSelectId
      (projectsUpsert (contentsUpsert db u.hash u.html u.markdown)
        u.url u.title u.state) u.url = some (projectsUpsertId db u.url) := by
    rw [projectsSelectId_projectsUpsert]
    rfl
  have hc : contentsSelectId
      (projectsUpsert (contentsUpsert db u.hash u.html u.markdown)
        u.url u.title u.state) u.hash = some (contentsUpsertId db u.hash) := by
    have : contentsSelectId
        (projectsUpsert (contentsUpsert db u.hash u.html u.markdown)
          u.url u.title u.state) u.hash =
        contentsSelectId (contentsUpsert db u.hash u.html u.markdown) u.hash := rfl
    rw [this, contentsSelectId_contentsUpsert]
  rw [hp, hc]
  rfl

/-- C1: for every entity processed by one atomic-upsert unit, the three
writes (contents insert, projects upsert, project_observations append)
take effect together or not at all: if any of the three statements or the
commit fails, no row from that unit is visible afterwards; and on success
the contents row exists already after the first statement, the projects
row after the second, and the appended observation row references the
rowids of both. -/
theorem c1_atomic_unit (db : DB) (u : UnitInput) :
    (∀ p : FailPoint, unitResult db u (some p) = db) ∧
    (∃ ci pi : Nat,
      (⟨ci, u.hash, u.html, u.markdown⟩ : ContentRow) ∈
        (contentsUpsert db u.hash u.html u.markdown).contents ∧
      (⟨ci, u.hash, u.html, u.markdown⟩ : ContentRow) ∈
        (unitResult db u none).contents ∧
      (⟨pi, u.url, u.title, u.state⟩ : ProjectRow) ∈
        (projectsUpsert (contentsUpsert db u.hash u.html u.markdown)
          u.url u.title u.state).projects ∧
      (⟨pi, u.url, u.title, u.state⟩ : ProjectRow) ∈
        (unitResult db u none).projects ∧
      (unitResult db u none).observations =
        db.observations ++
          [⟨freshId (db.observations.map (fun r => r.id)),
            some pi, u.t, some ci⟩]) := by
  constructor
  · exact unitResult_fail db u
  · refine ⟨contentsUpsertId db u.hash, projectsUpsertId db u.url, ?_, ?_, ?_, ?_, ?_⟩
    · rw [contentsUpsert_contents]
      exact List.mem_append_right _ (List.mem_singleton.mpr rfl)
    · rw [unit_contents, contentsUpsert_contents]
      exact List.mem_append_right _ (List.mem_singleton.mpr rfl)
    · rw [projectsUpsert_projects]
      have : projectsUpsertId (contentsUpsert db u.hash u.html u.markdown) u.url =
          projectsUpsertId db u.url := rfl
      rw [this]
      exact List.mem_append_right _ (List.mem_singleton.mpr rfl)
    · rw [unit_projects, projectsUpsert_projects]
      have : projectsUpsertId (contentsUpsert db u.hash u.html u.markdown) u.url =
          projectsUpsertId db u.url := rfl
      rw [this]
      exact List.mem_append_right _ (List.mem_singleton.mpr rfl)
    · exact unit_observations db u

/-! ## ContentStore put -/

/-- The content-store put operation at the granularity run uses it:
fingerprint the canonical bytes, derive the markdown form (the external
html-to-markdown conversion, passed as md), execute the contents INSERT
OR REPLACE, and hand the fingerprint on. -/
def put (md : String → String) (db : DB) (x : String) : DB × String :=
  (contentsUpsert db (fingerprint x) x (md x), fingerprint x)

/-- N repeated put calls with the same bytes. -/
def putN (md : String → String) (db : DB) (x : String) : Nat → DB
  | 0 => db
  | n + 1 => (put md (putN md db x n) x).1

theorem countP_hash_contentsUpsert (db : DB) (h x m : String) :
    (contentsUpsert db h x m).contents.countP (fun r => r.hash == h) = 1 := by
  rw [contentsUpsert_contents, List.countP_append]
  have h0 : (db.contents.filter
      (fun r => !(r.id == contentsUpsertId db h) && !(r.hash == h))).countP
        (fun r => r.hash == h) = 0 := by
    rw [List.countP_eq_zero]
    intro r hr
    rcases List.mem_filter.mp hr with ⟨-, hcond⟩
    simp only [Bool.and_eq_true, Bool.not_eq_true'] at hcond
    simp [hcond.2]
  rw [h0]
  simp

/-- C2: for every byte string X and every N >= 1, calling put N times
with the identical bytes X leaves exactly one contents row whose hash is
digest(X), and every call returns that same fingerprint. -/
theorem c2_put_idempotent (md : String → String) (db : DB) (x : String) (n : Nat) :
    (putN md db x (n + 1)).contents.countP
        (fun r => r.hash == fingerprint x) = 1 ∧
    (∀ db2 : DB, (put md db2 x).2 = fingerprint x) := by
  constructor
  · show (contentsUpsert (putN md db x n) (fingerprint x) x (md x)).contents.countP _ = 1
    exact countP_hash_contentsUpsert _ _ _ _
  · intro db2
    rfl

/-! ## Replacement semantics of the contents statement -/

theorem filter_hash_contentsUpsert (db : DB) (h x m : String) :
    (contentsUpsert db h x m).contents.filter (fun r => r.hash == h) =
      [⟨contentsUpsertId db h, h, x, m⟩] := by
  rw [contentsUpsert_contents, List.filter_append]
  have h0 : (db.contents.filter
      (fun r => !(r.id == contentsUpsertId db h) && !(r.hash == h))).filter
        (fun r => r.hash == h) = [] := by
    rw [List.filter_eq_nil_iff]
    intro r hr
    rcases List.mem_filter.mp hr with ⟨-, hcond⟩
    simp only [Bool.and_eq_true, Bool.not_eq_true'] at hcond
    simp [hcond.2]
  rw [h0]
  simp

theorem contentsUpsertId_contentsUpsert (db : DB) (h x m : String) :
    contentsUpsertId (contentsUpsert db h x m) h = contentsUpsertId db h := by
  unfold contentsUpsertId
  rw [contentsSelectId_contentsUpsert]
  rfl

/-- C3 counterexample: after storing bytes A under hash h, a second call
of the contents statement presenting the same hash with different bytes B
leaves the row holding B — the existing rawForm was overwritten, not
treated as a fatal integrity violation. -/
theorem c3_overwrite_counterexample :
    (((contentsUpsert dbEmpty "h" "A" "mA").contents.find?
        (fun r => r.hash == "h")).map (fun r => r.html) = some "A") ∧
    (((contentsUpsert (contentsUpsert dbEmpty "h" "A" "mA") "h" "B" "mB").contents.find?
        (fun r => r.hash == "h")).map (fun r => r.html) = some "B") ∧
    ("A" : String) ≠ "B" := by
  refine ⟨rfl, rfl, by decide⟩

/-- C3 amended: a later call presenting the same fingerprint replaces the
existing contents row in place (INSERT OR REPLACE reusing the selected
id): the rowid is kept, and the row afterwards holds the html and
markdown of the latest call (so byte-identical re-puts leave the stored
values unchanged, while a colliding put would silently overwrite rather
than abort). -/
theorem c3_replace_lastWriteWins (db : DB) (h x1 m1 x2 m2 : String) :
    contentsUpsertId (contentsUpsert db h x1 m1) h = contentsUpsertId db h ∧
    (contentsUpsert (contentsUpsert db h x1 m1) h x2 m2).contents.filter
        (fun r => r.hash == h) =
      [⟨contentsUpsertId db h, h, x2, m2⟩] := by
  refine ⟨contentsUpsertId_contentsUpsert db h x1 m1, ?_⟩
  rw [filter_hash_contentsUpsert, contentsUpsertId_contentsUpsert]

/-! ## Entity rows and the fingerprint -/

theorem filter_url_projectsUpsert (db : DB) (url ti st : String) :
    (projectsUpsert db url ti st).projects.filter (fun r => r.url == url) =
      [⟨projectsUpsertId db url, url, ti, st⟩] := by
  rw [projectsUpsert_projects, List.filter_append]
  have h0 : (db.projects.filter
      (fun r => !(r.id == projectsUpsertId db url) && !(r.url == url))).filter
        (fun r => r.url == url) = [] := by
    rw [List.filter_eq_nil_iff]
    intro r hr
    rcases List.mem_filter.mp hr with ⟨-, hcond⟩
    simp only [Bool.and_eq_true, Bool.not_eq_true'] at hcond
    simp [hcond.2]
  rw [h0]
  simp

/-- C4 counterexample: two atomic-upsert units for the same identifier
whose observations carry different fingerprints produce identical
projects tables — the projects row has no currentFingerprint column to
overwrite, so the stored Entity row cannot equal the fingerprint of the
unit in both cases. -/
theorem c4_no_fingerprint_column_counterexample :
    (unitResult dbEmpty ⟨"h1", "A", "mA", "u", "ti", "st", 0⟩ none).projects =
      (unitResult dbEmpty ⟨"h2", "B", "mB", "u", "ti", "st", 0⟩ none).projects ∧
    ("h1" : String) ≠ "h2" := by
  refine ⟨rfl, by decide⟩

/-- C4 amended: the projects row stores only url, title and state (no
fingerprint column), and each upsert for an existing identifier
overwrites title and state; the fingerprint observed by the unit is
recorded in the appended project_observations row, whose content_id
references the contents row holding that fingerprint. -/
theorem c4_entity_row_and_observation (db : DB) (u : UnitInput) :
    (unitResult db u none).projects.filter (fun r => r.url == u.url) =
      [⟨projectsUpsertId db u.url, u.url, u.title, u.state⟩] ∧
    (unitResult db u none).observations.getLast? =
      some ⟨freshId (db.observations.map (fun r => r.id)),
            some (projectsUpsertId db u.url), u.t,
            some (contentsUpsertId db u.hash)⟩ ∧
    ((unitResult db u none).contents.find?
        (fun r => r.id == contentsUpsertId db u.hash)).map (fun r => r.hash) =
      some u.hash := by
  refine ⟨?_, ?_, ?_⟩
  · rw [unit_projects, filter_url_projectsUpsert]
    rfl
  · rw [unit_observations]
    simp
  · rw [unit_contents, contentsUpsert_contents, List.find?_append]
    have h0 : (db.contents.filter
        (fun r => !(r.id == contentsUpsertId db u.hash) && !(r.hash == u.hash))).find?
          (fun r => r.id == contentsUpsertId db u.hash) = none := by
      rw [List.find?_eq_none]
      intro r hr
      rcases List.mem_filter.mp hr with ⟨-, hcond⟩
      simp only [Bool.and_eq_true, Bool.not_eq_true'] at hcond
      simp [hcond.1]
    simp [h0]

/-! ## Repeated entity upserts -/

/-- A sequence of projects upserts for one identifier, with the title and
state of each call. -/
def upsertRun (db : DB) (url : String) : List (String × String) → DB
  | [] => db
  | (ti, st) :: rest => upsertRun (projectsUpsert db url ti st) url rest

/-- C5: repeated upsert calls for one identifier never leave more than
one projects row for it; after each call the row holds the title and
state of the most recent call, and the rowid it lives under is the one
chosen by the first call (stable identity). -/
theorem c5_upsert_idempotent (db : DB) (url ti st : String)
    (calls : List (String × String)) :
    (upsertRun db url ((ti, st) :: calls)).projects.filter
        (fun r => r.url == url) =
      [⟨projectsUpsertId db url, url, (calls.getLastD (ti, st)).1,
        (calls.getLastD (ti, st)).2⟩] := by
  induction calls generalizing db ti st with
  | nil =>
      show (projectsUpsert db url ti st).projects.filter _ = _
      rw [filter_url_projectsUpsert, List.getLastD_nil]
  | cons c cs ih =>
      obtain ⟨ti2, st2⟩ := c
      show (upsertRun (projectsUpsert db url ti st) url ((ti2, st2) :: cs)).projects.filter _ = _
      rw [ih, projectsUpsertId_projectsUpsert, List.getLastD_cons]

/-! ## Wellformedness and foreign-key preservation helpers -/

theorem le_foldr_max (ids : List Nat) : ∀ x ∈ ids, x ≤ ids.foldr max 0 := by
  induction ids with
  | nil => simp
  | cons a tl ih =>
    intro x hx
    rcases List.mem_cons.mp hx with rfl | h
    · exact Nat.le_max_left _ _
    · exact Nat.le_trans (ih x h) (Nat.le_max_right _ _)

theorem freshId_not_mem (ids : List Nat) : freshId ids ∉ ids := by
  intro h
  have := le_foldr_max ids _ h
  simp only [freshId] at h this
  omega

theorem nodup_filter_append {α β : Type} (l : List α) (f : α → β)
    (q : α → Bool) (w : α) (hnd : (l.map f).Nodup)
    (hq : ∀ r ∈ l, q r = true → f r ≠ f w) :
    ((l.filter q ++ [w]).map f).Nodup := by
  rw [List.map_append]
  refine List.Nodup.append ?_ (List.nodup_singleton _) ?_
  · exact List.Nodup.sublist ((List.filter_sublist l).map f) hnd
  · intro x hx hw
    rw [List.map_singleton, List.mem_singleton] at hw
    rcases List.mem_map.mp hx with ⟨r, hrf, hfr⟩
    rcases List.mem_filter.mp hrf with ⟨hrl, hqr⟩
    exact hq r hrl hqr (hfr.trans hw)

theorem find?_filter_of_imp {α : Type} (l : List α) (p q : α → Bool)
    (himp : ∀ r ∈ l, p r = true → q r = true) :
    (l.filter q).find? p = l.find? p := by
  induction l with
  | nil => rfl
  | cons a tl ih =>
    have ihtl := ih (fun r hr => himp r (List.mem_cons_of_mem _ hr))
    by_cases hpa : p a = true
    · rw [List.filter_cons_of_pos (himp a (List.mem_cons_self a tl) hpa),
        List.find?_cons_of_pos _ hpa, List.find?_cons_of_pos _ hpa]
    · by_cases hqa : q a = true
      · rw [List.filter_cons_of_pos hqa, List.find?_cons_of_neg _ hpa,
          List.find?_cons_of_neg _ hpa]
        exact ihtl
      · rw [List.filter_cons_of_neg (by simpa using hqa),
          List.find?_cons_of_neg _ hpa]
        exact ihtl

/-- In a projects table without duplicate urls, looking a member row up by
its own url finds exactly that row. -/
theorem find?_url_of_nodup (l : List ProjectRow)
    (hnd : (l.map (fun r => r.url)).Nodup) (r : ProjectRow) (hr : r ∈ l) :
    l.find? (fun x => x.url == r.url) = some r := by
  induction l with
  | nil => cases hr
  | cons a tl ih =>
    rw [List.map_cons, List.nodup_cons] at hnd
    rcases List.mem_cons.mp hr with heq | hr2
    · rw [heq]
      have hpa : ((fun x : ProjectRow => x.url == a.url) a) = true := by simp
      have hpos : List.find? (fun x => x.url == a.url) (a :: tl) = some a :=
        List.find?_cons_of_pos _ hpa
      rw [hpos]
    · have ha : ¬(a.url == r.url) = true := by
        intro hcontra
        apply hnd.1
        rw [List.mem_map]
        have haeq : a.url = r.url := by simpa using hcontra
        exact ⟨r, hr2, haeq.symm⟩
      have hstep : List.find? (fun x => x.url == r.url) (a :: tl) =
          List.find? (fun x => x.url == r.url) tl :=
        List.find?_cons_of_neg _ ha
      rw [hstep]
      exact ih hnd.2 hr2

/-- DBWF survives the contents statement: the replacement filter removes
every row clashing on the reused rowid or the unique hash. -/
theorem dbwf_contentsUpsert (db : DB) (h x m : String) (hwf : DBWF db) :
    DBWF (contentsUpsert db h x m) := by
  obtain ⟨hci, hch, hpi, hpu⟩ := hwf
  refine ⟨?_, ?_, hpi, hpu⟩
  · rw [contentsUpsert_contents]
    refine nodup_filter_append _ _ _ _ hci ?_
    intro r _ hq
    simp only [Bool.and_eq_true, Bool.not_eq_true'] at hq
    simpa using hq.1
  · rw [contentsUpsert_contents]
    refine nodup_filter_append _ _ _ _ hch ?_
    intro r _ hq
    simp only [Bool.and_eq_true, Bool.not_eq_true'] at hq
    simpa using hq.2

/-- DBWF survives the projects statement. -/
theorem dbwf_projectsUpsert (db : DB) (url ti st : String) (hwf : DBWF db) :
    DBWF (projectsUpsert db url ti st) := by
  obtain ⟨hci, hch, hpi, hpu⟩ := hwf
  refine ⟨hci, hch, ?_, ?_⟩
  · rw [projectsUpsert_projects]
    refine nodup_filter_append _ _ _ _ hpi ?_
    intro r _ hq
    simp only [Bool.and_eq_true, Bool.not_eq_true'] at hq
    simpa using hq.1
  · rw [projectsUpsert_projects]
    refine nodup_filter_append _ _ _ _ hpu ?_
    intro r _ hq
    simp only [Bool.and_eq_true, Bool.not_eq_true'] at hq
    simpa using hq.2

/-- DBWF survives a whole unit, committed or rolled back. -/
theorem dbwf_unit (db : DB) (u : UnitInput) (fail : Option FailPoint)
    (hwf : DBWF db) : DBWF (unitResult db u fail) := by
  cases fail with
  | some p => rw [unitResult_fail]; exact hwf
  | none =>
    rw [unitResult_none]
    exact dbwf_projectsUpsert _ u.url u.title u.state
      (dbwf_contentsUpsert db u.hash u.html u.markdown hwf)

theorem unit_projects_eq (db : DB) (u : UnitInput) :
    (unitResult db u none).projects =
      (projectsUpsert db u.url u.title u.state).projects := rfl

/-- With unique urls and rowids, a projects row whose url differs from the
upserted identifier never carries the rowid the upsert writes under. -/
theorem id_ne_upsertId (db : DB) (hwf : DBWF db) (u2 : String)
    (r : ProjectRow) (hr : r ∈ db.projects) (hurl : r.url ≠ u2) :
    r.id ≠ projectsUpsertId db u2 := by
  obtain ⟨-, -, hpi, -⟩ := hwf
  unfold projectsUpsertId projectsSelectId
  cases hfind : db.projects.find? (fun x => x.url == u2) with
  | none =>
    show r.id ≠ freshId (db.projects.map (fun rr => rr.id))
    intro heq
    have hmem : r.id ∈ db.projects.map (fun rr => rr.id) :=
      List.mem_map_of_mem _ hr
    rw [heq] at hmem
    exact freshId_not_mem _ hmem
  | some rj =>
    show r.id ≠ rj.id
    intro heq
    have hrjmem := List.mem_of_find?_eq_some hfind
    have hrjurl : rj.url = u2 := by simpa using List.find?_some hfind
    have hreq : r = rj :=
      List.inj_on_of_nodup_map hpi hr hrjmem heq
    exact hurl (hreq ▸ hrjurl)

/-- Every rowid referenced into projects stays referenced after an
upsert: a surviving row keeps its id, and a replaced row's id is exactly
the id the replacement row is inserted under. -/
theorem projectIds_preserved (db : DB) (url ti st : String) (hwf : DBWF db)
    (id0 : Nat) (hid : ∃ r ∈ db.projects, r.id = id0) :
    ∃ r2 ∈ (projectsUpsert db url ti st).projects, r2.id = id0 := by
  obtain ⟨r, hr, rfl⟩ := hid
  by_cases hurl : r.url = url
  · have hfind : db.projects.find? (fun x => x.url == url) = some r := by
      have h0 := find?_url_of_nodup db.projects hwf.2.2.2 r hr
      rw [hurl] at h0
      exact h0
    have hpi : projectsUpsertId db url = r.id := by
      unfold projectsUpsertId projectsSelectId
      rw [hfind]
      rfl
    refine ⟨⟨projectsUpsertId db url, url, ti, st⟩, ?_, by rw [hpi]⟩
    rw [projectsUpsert_projects]
    exact List.mem_append_right _ (List.mem_singleton.mpr rfl)
  · by_cases hidpi : r.id = projectsUpsertId db url
    · refine ⟨⟨projectsUpsertId db url, url, ti, st⟩, ?_, hidpi.symm⟩
      rw [projectsUpsert_projects]
      exact List.mem_append_right _ (List.mem_singleton.mpr rfl)
    · refine ⟨r, ?_, rfl⟩
      rw [projectsUpsert_projects]
      refine List.mem_append_left _ (List.mem_filter.mpr ⟨hr, ?_⟩)
      simp only [Bool.and_eq_true, Bool.not_eq_true']
      exact ⟨by simpa using hidpi, by simpa using hurl⟩

/-- Foreign-key integrity of the observation log survives a unit. -/
theorem obsfk_unit (db : DB) (u : UnitInput) (fail : Option FailPoint)
    (hwf : DBWF db) (hfk : ObsFK db) : ObsFK (unitResult db u fail) := by
  cases fail with
  | some p => rw [unitResult_fail]; exact hfk
  | none =>
    intro o ho
    rw [unit_observations] at ho
    rcases List.mem_append.mp ho with hold | hnew
    · rcases hfk o hold with hnone | ⟨r, hr, heq⟩
      · exact Or.inl hnone
      · right
        obtain ⟨r2, hr2, hid2⟩ :=
          projectIds_preserved db u.url u.title u.state hwf r.id ⟨r, hr, rfl⟩
        refine ⟨r2, ?_, ?_⟩
        · rw [unit_projects_eq]; exact hr2
        · rw [heq, hid2]
    · right
      have hoeq : o = ⟨freshId (db.observations.map (fun x => x.id)),
          some (projectsUpsertId db u.url), u.t,
          some (contentsUpsertId db u.hash)⟩ := List.mem_singleton.mp hnew
      refine ⟨⟨projectsUpsertId db u.url, u.url, u.title, u.state⟩, ?_, ?_⟩
      · rw [unit_projects_eq, projectsUpsert_projects]
        exact List.mem_append_right _ (List.mem_singleton.mpr rfl)
      · rw [hoeq]

/-- The url lookup of a different identifier is untouched by an upsert. -/
theorem projectsSelectId_other (db : DB) (u2 ti st url : String)
    (hwf : DBWF db) (hne : url ≠ u2) :
    projectsSelectId (projectsUpsert db u2 ti st) url =
      projectsSelectId db url := by
  unfold projectsSelectId
  rw [projectsUpsert_projects, List.find?_append]
  have hnew : List.find? (fun x => x.url == url)
      [(⟨projectsUpsertId db u2, u2, ti, st⟩ : ProjectRow)] = none := by
    simp [Ne.symm hne]
  have himp : ∀ r ∈ db.projects, (r.url == url) = true →
      (!(r.id == projectsUpsertId db u2) && !(r.url == u2)) = true := by
    intro r hr hp
    have hru : r.url = url := by simpa using hp
    simp only [Bool.and_eq_true, Bool.not_eq_true']
    refine ⟨?_, ?_⟩
    · have := id_ne_upsertId db hwf u2 r hr (by rw [hru]; exact hne)
      simpa using this
    · rw [hru]; simpa using hne
  rw [find?_filter_of_imp db.projects (fun x => x.url == url) _ himp, hnew]
  cases db.projects.find? (fun x => x.url == url) <;> rfl

/-- One committed unit raises the observation count of its own entity by
exactly one and leaves every other entity's count unchanged. -/
theorem obsCountFor_unit (db : DB) (u : UnitInput) (url : String)
    (hwf : DBWF db) (hfk : ObsFK db) :
    obsCountFor (unitResult db u none) url =
      obsCountFor db url + (if u.url == url then 1 else 0) := by
  by_cases hcase : u.url = url
  · subst hcase
    simp only [beq_self_eq_true, if_true]
    have hsel : projectsSelectId (unitResult db u none) u.url =
        some (projectsUpsertId db u.url) := by
      rw [show projectsSelectId (unitResult db u none) u.url =
        projectsSelectId (projectsUpsert db u.url u.title u.state) u.url from rfl]
      rw [projectsSelectId_projectsUpsert]
    have hoc3 : obsCountFor (unitResult db u none) u.url =
        List.countP (fun o => o.projectId == some (projectsUpsertId db u.url))
          (unitResult db u none).observations := by
      unfold obsCountFor
      rw [hsel]
    have hnewc : List.countP
        (fun o => o.projectId == some (projectsUpsertId db u.url))
        [(⟨freshId (db.observations.map (fun x => x.id)),
           some (projectsUpsertId db u.url), u.t,
           some (contentsUpsertId db u.hash)⟩ : ObservationRow)] = 1 := by
      simp
    rw [hoc3, unit_observations, List.countP_append, hnewc]
    cases hselold : projectsSelectId db u.url with
    | some j =>
      have hpij : projectsUpsertId db u.url = j := by
        unfold projectsUpsertId
        rw [hselold]
      have hocdb : obsCountFor db u.url =
          List.countP (fun o => o.projectId == some j) db.observations := by
        unfold obsCountFor
        rw [hselold]
      rw [hocdb, hpij]
    | none =>
      have hpifresh : projectsUpsertId db u.url =
          freshId (db.projects.map (fun r => r.id)) := by
        unfold projectsUpsertId
        rw [hselold]
      have hocdb : obsCountFor db u.url = 0 := by
        unfold obsCountFor
        rw [hselold]
      have hzero : List.countP
          (fun o => o.projectId == some (projectsUpsertId db u.url))
          db.observations = 0 := by
        rw [List.countP_eq_zero]
        intro o ho hmatch
        have hpid : o.projectId = some (projectsUpsertId db u.url) := by
          simpa using hmatch
        rcases hfk o ho with hnone | ⟨r, hr, heq⟩
        · rw [hnone] at hpid
          cases hpid
        · rw [heq] at hpid
          have hrid : r.id = projectsUpsertId db u.url := by
            simpa using hpid
          rw [hpifresh] at hrid
          have hmem : r.id ∈ db.projects.map (fun rr => rr.id) :=
            List.mem_map_of_mem _ hr
          rw [hrid] at hmem
          exact freshId_not_mem _ hmem
      rw [hocdb, hzero]
  · have hbeq : (u.url == url) = false := by simpa using hcase
    simp only [hbeq, Bool.false_eq_true, if_false]
    have hsel : projectsSelectId (unitResult db u none) url =
        projectsSelectId db url := by
      rw [show projectsSelectId (unitResult db u none) url =
        projectsSelectId (projectsUpsert db u.url u.title u.state) url from rfl]
      exact projectsSelectId_other db u.url u.title u.state url hwf
        (fun h => hcase h.symm)
    cases hselold : projectsSelectId db url with
    | none =>
      have h3 : obsCountFor (unitResult db u none) url = 0 := by
        unfold obsCountFor
        rw [hsel, hselold]
      have hdb : obsCountFor db url = 0 := by
        unfold obsCountFor
        rw [hselold]
      rw [h3, hdb]
    | some j =>
      have hoc3 : obsCountFor (unitResult db u none) url =
          List.countP (fun o => o.projectId == some j)
            (unitResult db u none).observations := by
        unfold obsCountFor
        rw [hsel, hselold]
      have hocdb : obsCountFor db url =
          List.countP (fun o => o.projectId == some j) db.observations := by
        unfold obsCountFor
        rw [hselold]
      have hj : ∃ r ∈ db.projects, r.id = j ∧ r.url = url := by
        unfold projectsSelectId at hselold
        cases hfind : db.projects.find? (fun x => x.url == url) with
        | none => rw [hfind] at hselold; cases hselold
        | some rr =>
          rw [hfind] at hselold
          refine ⟨rr, List.mem_of_find?_eq_some hfind, ?_, ?_⟩
          · simpa using hselold
          · simpa using List.find?_some hfind
      obtain ⟨r, hr, hrid, hru⟩ := hj
      have hne2 : r.id ≠ projectsUpsertId db u.url :=
        id_ne_upsertId db hwf u.url r hr (by rw [hru]; exact fun h => hcase h.symm)
      have hnewzero : List.countP (fun o => o.projectId == some j)
          [(⟨freshId (db.observations.map (fun x => x.id)),
             some (projectsUpsertId db u.url), u.t,
             some (contentsUpsertId db u.hash)⟩ : ObservationRow)] = 0 := by
        have hnej : projectsUpsertId db u.url ≠ j := fun h => hne2 (hrid.trans h.symm)
        simp [hnej]
      rw [hoc3, hocdb, unit_observations, List.countP_append, hnewzero]

/-- Over a whole run (stopping at the first failed unit), the observation
count of an entity grows by exactly the number of committed units whose
identifier is that entity's. -/
theorem obsCountFor_runAll (units : List (UnitInput × Option FailPoint)) :
    ∀ db url, DBWF db → ObsFK db →
    obsCountFor (runAll db units) url =
      obsCountFor db url +
        (succUnits units).countP (fun v => v.url == url) := by
  induction units with
  | nil => intro db url _ _; rfl
  | cons p rest ih =>
    intro db url hwf hfk
    obtain ⟨u2, fail⟩ := p
    cases fail with
    | some fp =>
      have hstop : runAll db ((u2, some fp) :: rest) = db := by
        show (match runUnit db u2 (some fp) with
          | .ok db2 => runAll db2 rest
          | .error _ => db) = db
        cases fp <;> rfl
      rw [hstop]
      rfl
    | none =>
      have hstep : runAll db ((u2, none) :: rest) =
          runAll (unitResult db u2 none) rest := by
        show (match runUnit db u2 none with
          | .ok db2 => runAll db2 rest
          | .error _ => db) = _
        rw [runUnit_none]
        rfl
      rw [hstep,
        ih (unitResult db u2 none) url (dbwf_unit db u2 none hwf)
          (obsfk_unit db u2 none hwf hfk),
        obsCountFor_unit db u2 url hwf hfk]
      show _ = obsCountFor db url +
        List.countP (fun v => v.url == url) (u2 :: succUnits rest)
      rw [List.countP_cons]
      omega

/-- C6: the observation log is append-only — a committed unit appends
exactly one new project_observations row after the existing ones, a
failed unit appends nothing, and over any run the number of observation
rows attributed to an entity grows by exactly the number of committed
atomic-upsert units executed for it (fingerprint-equal repeats
included). -/
theorem c6_observation_append_only (db : DB) (url : String)
    (units : List (UnitInput × Option FailPoint))
    (hwf : DBWF db) (hfk : ObsFK db) :
    (∀ u2 : UnitInput, ∃ row,
      (unitResult db u2 none).observations = db.observations ++ [row]) ∧
    (∀ u2 : UnitInput, ∀ p : FailPoint,
      (unitResult db u2 (some p)).observations = db.observations) ∧
    obsCountFor (runAll db units) url =
      obsCountFor db url +
        (succUnits units).countP (fun v => v.url == url) := by
  refine ⟨?_, ?_, ?_⟩
  · intro u2
    exact ⟨_, unit_observations db u2⟩
  · intro u2 p
    rw [unitResult_fail]
  · exact obsCountFor_runAll units db url hwf hfk

/-- Witness for C6 at a concrete run: two committed units for entity u
and one for entity v against the empty database. -/
theorem c6_observation_append_only_witness :
    DBWF dbEmpty ∧ ObsFK dbEmpty ∧
    ((∀ u2 : UnitInput, ∃ row,
        (unitResult dbEmpty u2 none).observations =
          dbEmpty.observations ++ [row]) ∧
     (∀ u2 : UnitInput, ∀ p : FailPoint,
        (unitResult dbEmpty u2 (some p)).observations =
          dbEmpty.observations) ∧
     obsCountFor (runAll dbEmpty
        [(⟨"h1", "A", "mA", "u", "t1", "s1", 1⟩, none),
         (⟨"h2", "B", "mB", "v", "t2", "s2", 2⟩, none),
         (⟨"h1", "A", "mA", "u", "t3", "s3", 3⟩, none)]) "u" =
      obsCountFor dbEmpty "u" +
        (succUnits
          [(⟨"h1", "A", "mA", "u", "t1", "s1", 1⟩, none),
           (⟨"h2", "B", "mB", "v", "t2", "s2", 2⟩, none),
           (⟨"h1", "A", "mA", "u", "t3", "s3", 3⟩, none)]).countP
          (fun v => v.url == "u")) := by
  refine ⟨by decide, by decide, ?_⟩
  exact c6_observation_append_only dbEmpty "u"
    [(⟨"h1", "A", "mA", "u", "t1", "s1", 1⟩, none),
     (⟨"h2", "B", "mB", "v", "t2", "s2", 2⟩, none),
     (⟨"h1", "A", "mA", "u", "t3", "s3", 3⟩, none)]
    (by decide) (by decide)

set_option maxRecDepth 100000 in
/-- C7: the fingerprint is a deterministic pure function of the canonical
bytes — it is exactly the base62 encoding of the SHA-224 digest of the
UTF-8 bytes, the fingerprint a put call hands back does not depend on the
store state, and two concrete different byte strings receive different
fingerprints. -/
theorem c7_fingerprint_deterministic :
    (∀ x : String,
      fingerprint x = base62EncodeToString (sha224 (strBytes x))) ∧
    (∀ (md : String → String) (db1 db2 : DB) (x : String),
      (put md db1 x).2 = (put md db2 x).2) ∧
    fingerprint "A" ≠ fingerprint "B" := by
  refine ⟨fun x => rfl, fun md db1 db2 x => rfl, by decide⟩

/-- C8: the discovery loop keeps exactly the discovered tiles that are not
the fixed self-referential landing URL and that lie in the allow-list when
one was given (an empty allow-list means no restriction); the landing URL
is excluded even when the allow-list names it. -/
theorem c8_discovery_filter :
    (∀ (onlyURLs : List String) (tiles : List Discovered),
      discoverFilter onlyURLs tiles =
        tiles.filter (fun p => !(p.url == denyURL) &&
          (onlyURLs.isEmpty || onlyURLs.contains p.url))) ∧
    discoverFilter [denyURL] [⟨"sx", denyURL⟩] = [] := by
  constructor
  · intro onlyURLs tiles
    induction tiles with
    | nil => rfl
    | cons p rest ih =>
      simp only [discoverFilter, List.filter_cons]
      cases hd : p.url == denyURL with
      | true => simp [hd, ih]
      | false =>
        cases he : onlyURLs.isEmpty with
        | true => simp [hd, he, ih]
        | false =>
          cases hc : onlyURLs.contains p.url with
          | true => simp [hd, he, hc, ih]
          | false => simp [hd, he, hc, ih]
  · decide

/-- C9: on a fetched entity page whose #yield lookup yields no selection,
the get helper returns a nil selection list together with a NIL error, so
the per-entity error check in run does not fire and the subsequent
sels[0] index panics (before any database write); a fetch failure by
contrast surfaces as the error return.  The two paths are therefore not
handled alike. -/
theorem c9_structure_absent_behavior (md : String → String) (db : DB)
    (url st : String) (t : Nat) :
    get (.ok ⟨fun _ => none⟩) ["#yield"] = .ok none ∧
    processEntity md db url st (.ok ⟨fun _ => none⟩) t = .panicked ∧
    processEntity md db url st (.error ()) t = .fetchErr := by
  exact ⟨rfl, rfl, rfl⟩

/-- C10: the absolutization loops replace every anchor href and image src
by the abs value of the present-or-empty attribute; abs resolves a
parsable value against the fixed base URL and maps an unparsable value to
the empty string; a missing attribute is treated as the empty string and
so resolves to the base URL itself. -/
theorem c10_absolutize_links :
    (∀ es : List Elem, rewriteElems es =
      es.map (fun e => ⟨some (absHelper (attrOr e ""))⟩)) ∧
    (∀ s : String, absHelper s =
      match urlParse s with
      | none => ""
      | some rel => (resolveReference projectsURL rel).render) ∧
    urlParse ":" = none ∧
    absHelper ":" = "" ∧
    rewriteElems [⟨none⟩] =
      [⟨some "https://www.shapeyourcityhalifax.ca/projects"⟩] ∧
    absHelper "x" = "https://www.shapeyourcityhalifax.ca/x" := by
  refine ⟨fun es => rfl, fun s => rfl, by decide, by decide, by decide, by decide⟩

end ScrapeYourCity
